import Mathlib

/-!
Shallow embedding of the permission-matrix editor implemented in
`src/unnamed/part_000` (GroupRolesClient) and, in near-identical form, in
`src/src/app/security-rules/components/SecurityRulesClient.tsx`
(SecurityRulesClient).  The React component's `useState` cells become the
fields of `RolesState`; each event handler becomes a state-transition
function.  Entity identifiers are JavaScript numbers, which we model with
`JsNumber` (an integer or `-Infinity`) because `Math.max()` applied to an
empty spread — as in `handleAddRole` on an empty collection — evaluates to
`-Infinity`.
-/

/-- The fixed permission enumeration:
`type Permission = 'Read' | 'Add' | 'Edit' | 'Modify' | 'Delete' | 'Post'`. -/
inductive Permission where
  | Read
  | Add
  | Edit
  | Modify
  | Delete
  | Post
deriving DecidableEq

/-- A JavaScript number as the code uses it for identifiers: an integer, or
`-Infinity` (the value of `Math.max()` with no arguments). -/
inductive JsNumber where
  | negInf
  | int (n : Int)
deriving DecidableEq

/-- JavaScript `Math.max` on two values, restricted to the numbers we track. -/
def jsNumMax : JsNumber → JsNumber → JsNumber
  | JsNumber.negInf, b => b
  | a, JsNumber.negInf => a
  | JsNumber.int a, JsNumber.int b => JsNumber.int (max a b)

/-- `Math.max(...l)`: fold of `jsNumMax` with identity element `-Infinity`,
which is what JavaScript returns on an empty argument list. -/
def jsMax (l : List JsNumber) : JsNumber :=
  l.foldl jsNumMax JsNumber.negInf

/-- Adding 1 to a JavaScript number; `-Infinity + 1 = -Infinity`. -/
def jsAddOne : JsNumber → JsNumber
  | JsNumber.negInf => JsNumber.negInf
  | JsNumber.int n => JsNumber.int (n + 1)

/-- String interpolation `${n}` of a JavaScript number. -/
def jsNumToString : JsNumber → String
  | JsNumber.negInf => "-Infinity"
  | JsNumber.int n => toString n

/-- `type Resource = { name: string; permissions: Permission[] }`. -/
structure Resource where
  name : String
  permissions : List Permission
deriving DecidableEq

/-- `type Role = { id: number; name: string; description: string;
resources: Resource[] }`. -/
structure Role where
  id : JsNumber
  name : String
  description : String
  resources : List Resource
deriving DecidableEq

/-- First seed role of `initialRoles`. -/
def memberRole : Role :=
  { id := JsNumber.int 1
    name := "Member"
    description := "Basic access for regular users"
    resources :=
      [ { name := "Group Members"
          permissions := [Permission.Read, Permission.Add, Permission.Delete] }
      , { name := "Forum Categories"
          permissions := [Permission.Read, Permission.Add, Permission.Modify,
                          Permission.Delete, Permission.Post] }
      , { name := "Category1"
          permissions := [Permission.Edit, Permission.Delete, Permission.Post] }
      , { name := "Category2"
          permissions := [Permission.Post] } ] }

/-- Second seed role of `initialRoles`. -/
def adminRole : Role :=
  { id := JsNumber.int 2
    name := "Admin"
    description := "Full access for administrators"
    resources :=
      [ { name := "Group Members"
          permissions := [Permission.Read, Permission.Add, Permission.Delete] }
      , { name := "Forum Categories"
          permissions := [Permission.Read, Permission.Add, Permission.Modify,
                          Permission.Delete, Permission.Post] } ] }

/-- Third seed role of `initialRoles`. -/
def moderatorRole : Role :=
  { id := JsNumber.int 3
    name := "Moderator"
    description := "Moderation capabilities for forum content"
    resources :=
      [ { name := "Forum Categories"
          permissions := [Permission.Read, Permission.Edit, Permission.Modify,
                          Permission.Delete, Permission.Post] }
      , { name := "Category1"
          permissions := [Permission.Read, Permission.Edit, Permission.Delete,
                          Permission.Post] }
      , { name := "Category2"
          permissions := [Permission.Read, Permission.Edit, Permission.Post] } ] }

/-- The hardcoded seed data `initialRoles`. -/
def initialRoles : List Role := [memberRole, adminRole, moderatorRole]

/-- The fixed permission catalog `allPermissions`. -/
def allPermissions : List Permission :=
  [Permission.Read, Permission.Add, Permission.Edit, Permission.Modify,
   Permission.Delete, Permission.Post]

/-- The fixed resource catalog `allResources`. -/
def allResources : List String :=
  ["Group Members", "Forum Categories", "Category1", "Category2",
   "User Profiles", "System Settings", "Audit Logs"]

/-- The component state: the `useState` cells of `GroupRolesClient`.
`editingRole` is the Draft; it is non-nullable in the source (`useState<Role>`),
so it is a plain `Role` here.  `deletingRoleId` is the pending-deletion latch. -/
structure RolesState where
  roles : List Role
  selectedRoleId : JsNumber
  editingRole : Role
  isResourceDropdownOpen : Bool
  deletingRoleId : Option JsNumber
deriving DecidableEq

/-- The state at mount: `useState(initialRoles)`, `useState(1)`,
`useState(initialRoles[0])`, `useState(false)`, `useState(null)`. -/
def initState : RolesState :=
  { roles := initialRoles
    selectedRoleId := JsNumber.int 1
    editingRole := memberRole
    isResourceDropdownOpen := false
    deletingRoleId := none }

/-- `roles.find(r => r.id === roleId)`: first role with the given id. -/
def findRole : List Role → JsNumber → Option Role
  | [], _ => none
  | r :: rs, i => if r.id = i then some r else findRole rs i

/-- `handleSelectRole`: sets Selection unconditionally; replaces the Draft
with a copy of the found role only when the id exists in the collection. -/
def handleSelectRole (s : RolesState) (roleId : JsNumber) : RolesState :=
  match findRole s.roles roleId with
  | some role => { s with selectedRoleId := roleId, editingRole := role }
  | none => { s with selectedRoleId := roleId }

/-- `handleRoleNameChange`: updates the Draft's name from the input value. -/
def handleRoleNameChange (s : RolesState) (value : String) : RolesState :=
  { s with editingRole := { s.editingRole with name := value } }

/-- `handleRoleDescriptionChange`: updates the Draft's description. -/
def handleRoleDescriptionChange (s : RolesState) (value : String) : RolesState :=
  { s with editingRole := { s.editingRole with description := value } }

/-- The toggle on one attachment's permission list:
remove `p` (via `filter(q => q !== p)`) when present, else push it. -/
def togglePerms (perms : List Permission) (p : Permission) : List Permission :=
  if p ∈ perms then perms.filter (fun q => decide (q ≠ p))
  else perms ++ [p]

/-- Indexing step of `handlePermissionChange`: rebuild the resource list with
the attachment at `i` toggled.  The source reads
`updatedResources[resourceIndex].permissions`, which throws when `i` is out of
range; we model that failure as `none`. -/
def toggleResources : List Resource → Nat → Permission → Option (List Resource)
  | [], _, _ => none
  | r :: rs, 0, p =>
      some ({ r with permissions := togglePerms r.permissions p } :: rs)
  | r :: rs, Nat.succ i, p =>
      (toggleResources rs i p).map (fun rs2 => r :: rs2)

/-- `handlePermissionChange(resourceIndex, permission)`: toggles one permission
of one attachment of the Draft. -/
def handlePermissionChange (s : RolesState) (i : Nat) (p : Permission) :
    Option RolesState :=
  (toggleResources s.editingRole.resources i p).map
    (fun rs => { s with editingRole := { s.editingRole with resources := rs } })

/-- `handleSaveChanges`:
`setRoles(roles.map(role => role.id === editingRole.id ? editingRole : role))`. -/
def handleSaveChanges (s : RolesState) : RolesState :=
  { s with roles :=
      s.roles.map (fun role =>
        if role.id = s.editingRole.id then s.editingRole else role) }

/-- `handleAddRole`: fresh id `Math.max(...roles.map(r => r.id)) + 1`, name
`New ${newId}`, empty description and resources; appends, selects, drafts. -/
def handleAddRole (s : RolesState) : RolesState :=
  let newId := jsAddOne (jsMax (s.roles.map Role.id))
  let newRole : Role :=
    { id := newId
      name := "New " ++ jsNumToString newId
      description := ""
      resources := [] }
  { s with roles := s.roles ++ [newRole]
           selectedRoleId := newId
           editingRole := newRole }

/-- `handleDeleteRole` (requestDelete): latches the id pending deletion. -/
def handleDeleteRole (s : RolesState) (roleId : JsNumber) : RolesState :=
  { s with deletingRoleId := some roleId }

/-- `roles.filter(role => role.id !== deletingRoleId)`. -/
def removeRoles : List Role → JsNumber → List Role
  | [], _ => []
  | r :: rs, d => if r.id = d then removeRoles rs d else r :: removeRoles rs d

/-- `confirmDeleteRole`: early-returns when nothing is pending; otherwise
filters out the latched id, and when the deleted role was selected, moves
Selection to the first remaining role's id (or the sentinel `0` when none
remain) and replaces the Draft with a copy of that first role — the source
guards `if (newEditingRole)`, so when the collection becomes empty the Draft
is left as it was.  Clears the latch. -/
def confirmDeleteRole (s : RolesState) : RolesState :=
  match s.deletingRoleId with
  | none => s
  | some d =>
      let updatedRoles := removeRoles s.roles d
      if s.selectedRoleId = d then
        match updatedRoles with
        | [] =>
            { s with roles := updatedRoles
                     selectedRoleId := JsNumber.int 0
                     deletingRoleId := none }
        | first :: rest =>
            { s with roles := first :: rest
                     selectedRoleId := first.id
                     editingRole := first
                     deletingRoleId := none }
      else
        { s with roles := updatedRoles, deletingRoleId := none }

/-- `cancelDeleteRole`: clears the pending-deletion latch. -/
def cancelDeleteRole (s : RolesState) : RolesState :=
  { s with deletingRoleId := none }

/-- `handleRemoveResource(index)` (detachResource): `splice(index, 1)` on the
Draft's resource list, a no-op when `index` is out of range. -/
def handleRemoveResource (s : RolesState) (i : Nat) : RolesState :=
  { s with editingRole :=
      { s.editingRole with resources := s.editingRole.resources.eraseIdx i } }

/-- The resource-dropdown item `onClick` (attachResource): closes the dropdown
and appends `{ name: resource, permissions: [] }` to the Draft's resources. -/
def attachResource (s : RolesState) (resource : String) : RolesState :=
  { s with isResourceDropdownOpen := false
           editingRole :=
             { s.editingRole with resources :=
                 s.editingRole.resources ++
                   [{ name := resource, permissions := [] }] } }

/-- `setIsResourceDropdownOpen`, from the dropdown button and the
outside-click handler. -/
def setResourceDropdownOpen (s : RolesState) (b : Bool) : RolesState :=
  { s with isResourceDropdownOpen := b }

/-- One user-driven transition of the editor.  `attach` carries the
precondition the UI enforces by filtering the dropdown list (the name is not
already attached); `toggle` is only enabled at a valid index (the source
would throw otherwise). -/
inductive Step : RolesState → RolesState → Prop where
  | select (s : RolesState) (i : JsNumber) : Step s (handleSelectRole s i)
  | rename (s : RolesState) (v : String) : Step s (handleRoleNameChange s v)
  | redescribe (s : RolesState) (v : String) :
      Step s (handleRoleDescriptionChange s v)
  | save (s : RolesState) : Step s (handleSaveChanges s)
  | add (s : RolesState) : Step s (handleAddRole s)
  | requestDelete (s : RolesState) (i : JsNumber) : Step s (handleDeleteRole s i)
  | confirmDelete (s : RolesState) : Step s (confirmDeleteRole s)
  | cancelDelete (s : RolesState) : Step s (cancelDeleteRole s)
  | attach (s : RolesState) (r : String)
      (hfresh : ∀ a ∈ s.editingRole.resources, a.name ≠ r) :
      Step s (attachResource s r)
  | detach (s : RolesState) (i : Nat) : Step s (handleRemoveResource s i)
  | toggle (s : RolesState) (i : Nat) (p : Permission) (s' : RolesState)
      (h : handlePermissionChange s i p = some s') : Step s s'
  | dropdown (s : RolesState) (b : Bool) : Step s (setResourceDropdownOpen s b)

/-- States reachable from the seed state by the editor's operations. -/
inductive Reachable : RolesState → Prop where
  | init : Reachable initState
  | step {s s' : RolesState} : Reachable s → Step s s' → Reachable s'

/-- Well-formedness of one entity: attachment names are pairwise distinct and
no permission list repeats a permission. -/
def RoleInv (r : Role) : Prop :=
  (r.resources.map Resource.name).Nodup ∧
  ∀ a ∈ r.resources, a.permissions.Nodup

/-- Well-formedness of a state: every collection entry and the Draft are
well-formed entities. -/
def StateInv (s : RolesState) : Prop :=
  (∀ r ∈ s.roles, RoleInv r) ∧ RoleInv s.editingRole

instance : DecidablePred RoleInv := fun r => by
  unfold RoleInv; infer_instance

instance : DecidablePred StateInv := fun s => by
  unfold StateInv; infer_instance

/-- A reachable state whose collection holds only the Member role, obtained
from the seed state by confirming deletion of roles 2 and 3. -/
def soloMemberState : RolesState :=
  confirmDeleteRole
    (handleDeleteRole
      (confirmDeleteRole (handleDeleteRole initState (JsNumber.int 2)))
      (JsNumber.int 3))

/-- The (reachable) state in which every seed role has been deleted: confirm
deletion of ids 1, 2 and 3 in turn.  Its collection is empty. -/
def drainedState : RolesState :=
  confirmDeleteRole
    (handleDeleteRole
      (confirmDeleteRole
        (handleDeleteRole
          (confirmDeleteRole (handleDeleteRole initState (JsNumber.int 1)))
          (JsNumber.int 2)))
      (JsNumber.int 3))

/-! ### Helper lemmas -/

theorem findRole_eq_none (l : List Role) (i : JsNumber)
    (h : ∀ r ∈ l, r.id ≠ i) : findRole l i = none := by
  induction l with
  | nil => rfl
  | cons r rs ih =>
    unfold findRole
    rw [if_neg (h r (List.mem_cons_self r rs))]
    exact ih fun x hx => h x (List.mem_cons_of_mem r hx)

theorem findRole_of_mem_nodup (l : List Role) (E : Role)
    (hnodup : (l.map Role.id).Nodup) (hmem : E ∈ l) :
    findRole l E.id = some E := by
  induction l with
  | nil => cases hmem
  | cons r rs ih =>
    rw [List.map_cons, List.nodup_cons] at hnodup
    unfold findRole
    by_cases hr : r.id = E.id
    · rw [if_pos hr]
      rcases List.mem_cons.mp hmem with h | h
      · rw [h]
      · exact absurd (hr ▸ List.mem_map_of_mem Role.id h) hnodup.1
    · rw [if_neg hr]
      rcases List.mem_cons.mp hmem with h | h
      · exact absurd (congrArg Role.id h.symm) hr
      · exact ih hnodup.2 h

theorem findRole_mem (l : List Role) (i : JsNumber) (r : Role)
    (h : findRole l i = some r) : r ∈ l := by
  induction l with
  | nil => cases h
  | cons x xs ih =>
    unfold findRole at h
    by_cases hx : x.id = i
    · rw [if_pos hx, Option.some.injEq] at h
      rw [← h]
      exact List.mem_cons_self x xs
    · rw [if_neg hx] at h
      exact List.mem_cons_of_mem x (ih h)

theorem mem_removeRoles (a : Role) (l : List Role) (d : JsNumber) :
    a ∈ removeRoles l d ↔ a ∈ l ∧ a.id ≠ d := by
  induction l with
  | nil => simp [removeRoles]
  | cons r rs ih =>
    unfold removeRoles
    by_cases h : r.id = d
    · rw [if_pos h, ih, List.mem_cons]
      constructor
      · rintro ⟨ha, hd⟩
        exact ⟨Or.inr ha, hd⟩
      · rintro ⟨(rfl | ha), hd⟩
        · exact absurd h hd
        · exact ⟨ha, hd⟩
    · rw [if_neg h, List.mem_cons, List.mem_cons, ih]
      constructor
      · rintro (rfl | ⟨ha, hd⟩)
        · exact ⟨Or.inl rfl, h⟩
        · exact ⟨Or.inr ha, hd⟩
      · rintro ⟨(rfl | ha), hd⟩
        · exact Or.inl rfl
        · exact Or.inr ⟨ha, hd⟩

theorem eraseIdx_append_singleton {α : Type} (l : List α) (x : α) :
    (l ++ [x]).eraseIdx l.length = l := by
  induction l with
  | nil => rfl
  | cons r rs ih =>
    show r :: (rs ++ [x]).eraseIdx rs.length = r :: rs
    rw [ih]

/-! ### C7 -/

/-- Claim C7: with no entity pending deletion, `confirmDeleteRole` leaves the
collection, selection and draft unchanged and the latch stays clear; and in
every state `cancelDeleteRole` clears the latch without touching the
collection. -/
theorem confirmDelete_noPending_and_cancel_frame (s : RolesState) :
    (s.deletingRoleId = none →
      confirmDeleteRole s = s ∧ (confirmDeleteRole s).deletingRoleId = none) ∧
    (cancelDeleteRole s).roles = s.roles ∧
    (cancelDeleteRole s).deletingRoleId = none := by
  refine ⟨fun h => ?_, rfl, rfl⟩
  have hc : confirmDeleteRole s = s := by
    unfold confirmDeleteRole
    rw [h]
  exact ⟨hc, by rw [hc]; exact h⟩

/-- Witness for C7 at the seed state. -/
theorem confirmDelete_noPending_and_cancel_frame_witness :
    (initState.deletingRoleId = none →
      confirmDeleteRole initState = initState ∧
      (confirmDeleteRole initState).deletingRoleId = none) ∧
    (cancelDeleteRole initState).roles = initState.roles ∧
    (cancelDeleteRole initState).deletingRoleId = none :=
  confirmDelete_noPending_and_cancel_frame initState

/-! ### C10 -/

/-- Claim C10: selecting an id absent from the collection still moves the
selection to that id, leaves the draft (and the collection) unchanged, and
afterwards the selection references no entity of the collection. -/
theorem selectRole_missing_id (s : RolesState) (i : JsNumber)
    (h : ∀ r ∈ s.roles, r.id ≠ i) :
    (handleSelectRole s i).selectedRoleId = i ∧
    (handleSelectRole s i).editingRole = s.editingRole ∧
    (handleSelectRole s i).roles = s.roles ∧
    ∀ r ∈ (handleSelectRole s i).roles, r.id ≠ i := by
  unfold handleSelectRole
  rw [findRole_eq_none s.roles i h]
  exact ⟨rfl, rfl, rfl, h⟩

/-- Witness for C10: selecting the nonexistent id 99 from the seed state. -/
theorem selectRole_missing_id_witness :
    (∀ r ∈ initState.roles, r.id ≠ JsNumber.int 99) ∧
    ((handleSelectRole initState (JsNumber.int 99)).selectedRoleId =
        JsNumber.int 99 ∧
      (handleSelectRole initState (JsNumber.int 99)).editingRole =
        initState.editingRole ∧
      (handleSelectRole initState (JsNumber.int 99)).roles = initState.roles ∧
      ∀ r ∈ (handleSelectRole initState (JsNumber.int 99)).roles,
        r.id ≠ JsNumber.int 99) :=
  ⟨by decide, selectRole_missing_id initState (JsNumber.int 99) (by decide)⟩

/-! ### C5 -/

/-- Claim C5: for an entity `E` of the collection (ids being pairwise
distinct, as the invariants guarantee), `handleSelectRole` on `E.id` sets the
selection to `E.id` and replaces the draft with a copy of `E`, discarding
whatever draft was there before. -/
theorem selectRole_yields_copy (s : RolesState) (E : Role)
    (hnodup : (s.roles.map Role.id).Nodup) (hmem : E ∈ s.roles) :
    (handleSelectRole s E.id).selectedRoleId = E.id ∧
    (handleSelectRole s E.id).editingRole = E := by
  unfold handleSelectRole
  rw [findRole_of_mem_nodup s.roles E hnodup hmem]
  exact ⟨rfl, rfl⟩

/-- Witness for C5: selecting the Admin seed role. -/
theorem selectRole_yields_copy_witness :
    (initState.roles.map Role.id).Nodup ∧ adminRole ∈ initState.roles ∧
    ((handleSelectRole initState adminRole.id).selectedRoleId = adminRole.id ∧
      (handleSelectRole initState adminRole.id).editingRole = adminRole) :=
  ⟨by decide, by decide,
    selectRole_yields_copy initState adminRole (by decide) (by decide)⟩

/-! ### C4 -/

/-- Claim C4: attaching a not-yet-present resource appends
`{ name := r, permissions := [] }` at the end of the draft's resource list,
and detaching at the resulting last index restores the prior list exactly. -/
theorem attach_detach_roundtrip (s : RolesState) (r : String)
    (hfresh : ∀ a ∈ s.editingRole.resources, a.name ≠ r) :
    (attachResource s r).editingRole.resources =
      s.editingRole.resources ++ [{ name := r, permissions := [] }] ∧
    (handleRemoveResource (attachResource s r)
        s.editingRole.resources.length).editingRole.resources =
      s.editingRole.resources := by
  refine ⟨rfl, ?_⟩
  show (s.editingRole.resources ++
        [({ name := r, permissions := [] } : Resource)]).eraseIdx
      s.editingRole.resources.length = s.editingRole.resources
  exact eraseIdx_append_singleton _ _

/-- Witness for C4: attaching "User Profiles" to the seed draft. -/
theorem attach_detach_roundtrip_witness :
    (∀ a ∈ initState.editingRole.resources, a.name ≠ "User Profiles") ∧
    ((attachResource initState "User Profiles").editingRole.resources =
        initState.editingRole.resources ++
          [({ name := "User Profiles", permissions := [] } : Resource)] ∧
      (handleRemoveResource (attachResource initState "User Profiles")
          initState.editingRole.resources.length).editingRole.resources =
        initState.editingRole.resources) :=
  ⟨by decide, attach_detach_roundtrip initState "User Profiles" (by decide)⟩

/-! ### C1 -/

/-- Claim C1 (amended): when the pending-deletion latch holds the currently
selected id, `confirmDeleteRole` removes exactly the entities with that id,
clears the latch, and moves the selection to the first remaining entity's id
with the draft becoming a copy of it; when the collection becomes empty the
selection becomes the sentinel `0` while the draft is left unchanged (the
source only replaces the draft when a first remaining entity exists). -/
theorem confirmDelete_selected_shifts (s : RolesState) (d : JsNumber)
    (hpend : s.deletingRoleId = some d) (hsel : s.selectedRoleId = d) :
    (confirmDeleteRole s).roles = removeRoles s.roles d ∧
    (∀ r ∈ (confirmDeleteRole s).roles, r.id ≠ d) ∧
    (∀ r ∈ s.roles, r.id ≠ d → r ∈ (confirmDeleteRole s).roles) ∧
    (confirmDeleteRole s).deletingRoleId = none ∧
    (removeRoles s.roles d = [] →
      (confirmDeleteRole s).selectedRoleId = JsNumber.int 0 ∧
      (confirmDeleteRole s).editingRole = s.editingRole) ∧
    (∀ first rest, removeRoles s.roles d = first :: rest →
      (confirmDeleteRole s).selectedRoleId = first.id ∧
      (confirmDeleteRole s).editingRole = first) := by
  cases hrem : removeRoles s.roles d with
  | nil =>
    have hc : confirmDeleteRole s =
        { s with roles := []
                 selectedRoleId := JsNumber.int 0
                 deletingRoleId := none } := by
      unfold confirmDeleteRole
      rw [hpend]
      show (if s.selectedRoleId = d then _ else _) = _
      rw [if_pos hsel, hrem]
    rw [hc]
    refine ⟨rfl, ?_, ?_, rfl, fun _ => ⟨rfl, rfl⟩, ?_⟩
    · intro r hr
      simp at hr
    · intro r hr hrd
      have hmem := (mem_removeRoles r s.roles d).mpr ⟨hr, hrd⟩
      rw [hrem] at hmem
      exact hmem
    · intro first rest hfr
      simp at hfr
  | cons first rest =>
    have hc : confirmDeleteRole s =
        { s with roles := first :: rest
                 selectedRoleId := first.id
                 editingRole := first
                 deletingRoleId := none } := by
      unfold confirmDeleteRole
      rw [hpend]
      show (if s.selectedRoleId = d then _ else _) = _
      rw [if_pos hsel, hrem]
    rw [hc]
    refine ⟨rfl, ?_, ?_, rfl, ?_, ?_⟩
    · intro r hr
      have hr' : r ∈ removeRoles s.roles d := by
        rw [hrem]
        exact hr
      exact ((mem_removeRoles r s.roles d).mp hr').2
    · intro r hr hrd
      have hmem := (mem_removeRoles r s.roles d).mpr ⟨hr, hrd⟩
      rw [hrem] at hmem
      exact hmem
    · intro habs
      simp at habs
    · intro f rs hfr
      cases hfr
      exact ⟨rfl, rfl⟩

/-- Counterexample for C1: after `requestDelete(1)` and `confirmDelete()` on
the one-entity state, the collection is empty and the selection is the
sentinel `0`, yet the draft still equals the deleted Member role (its
resource list is non-empty), so the draft was not cleared. -/
theorem confirmDelete_lastEntity_draft_not_cleared :
    soloMemberState.roles = [memberRole] ∧
    soloMemberState.selectedRoleId = JsNumber.int 1 ∧
    soloMemberState.editingRole = memberRole ∧
    (confirmDeleteRole
        (handleDeleteRole soloMemberState (JsNumber.int 1))).roles = [] ∧
    (confirmDeleteRole
        (handleDeleteRole soloMemberState (JsNumber.int 1))).selectedRoleId =
      JsNumber.int 0 ∧
    (confirmDeleteRole
        (handleDeleteRole soloMemberState (JsNumber.int 1))).editingRole =
      memberRole ∧
    memberRole.resources ≠ [] := by decide

/-- Witness for C1 (amended) on the spec's scenario: ids `{1,2,3}` with
selection 1; after `requestDelete(1)` and `confirmDelete()` the collection is
`{2,3}` and the selection is 2. -/
theorem confirmDelete_selected_shifts_witness :
    (handleDeleteRole initState (JsNumber.int 1)).deletingRoleId =
      some (JsNumber.int 1) ∧
    (handleDeleteRole initState (JsNumber.int 1)).selectedRoleId =
      JsNumber.int 1 ∧
    (confirmDeleteRole (handleDeleteRole initState (JsNumber.int 1))).roles =
      [adminRole, moderatorRole] ∧
    (confirmDeleteRole
        (handleDeleteRole initState (JsNumber.int 1))).selectedRoleId =
      JsNumber.int 2 := by
  have h := confirmDelete_selected_shifts
    (handleDeleteRole initState (JsNumber.int 1)) (JsNumber.int 1) rfl rfl
  have hrem : removeRoles
      (handleDeleteRole initState (JsNumber.int 1)).roles (JsNumber.int 1) =
      adminRole :: [moderatorRole] := by decide
  refine ⟨rfl, rfl, ?_, ?_⟩
  · rw [h.1, hrem]
  · exact (h.2.2.2.2.2 adminRole [moderatorRole] hrem).1

/-! ### C2 -/

/-- Claim C2, evaluated at the failing input (the empty collection):
`handleAddRole` computes `Math.max(...[]) + 1 = -Infinity`, so the entity it
appends has identifier `-Infinity` and name `"New -Infinity"` — not the seed
identifier 1 with name `"New 1"` that the specification requires. -/
theorem addRole_on_empty_collection :
    drainedState.roles = [] ∧
    (handleAddRole drainedState).roles =
      [{ id := JsNumber.negInf
         name := "New -Infinity"
         description := ""
         resources := [] }] ∧
    (handleAddRole drainedState).selectedRoleId = JsNumber.negInf ∧
    (handleAddRole drainedState).editingRole.id = JsNumber.negInf ∧
    JsNumber.negInf ≠ JsNumber.int 1 := by decide

/-! ### C3 -/

theorem mem_togglePerms_togglePerms (ps : List Permission) (p q : Permission) :
    q ∈ togglePerms (togglePerms ps p) p ↔ q ∈ ps := by
  unfold togglePerms
  by_cases hp : p ∈ ps
  · rw [if_pos hp]
    have hnp : p ∉ ps.filter (fun q => decide (q ≠ p)) := by
      simp [List.mem_filter]
    rw [if_neg hnp]
    by_cases hq : q = p
    · subst hq
      simp [List.mem_append, hp]
    · simp [List.mem_append, List.mem_filter, hq]
  · rw [if_neg hp]
    have hpmem : p ∈ ps ++ [p] := by simp
    rw [if_pos hpmem]
    by_cases hq : q = p
    · subst hq
      simp [List.mem_filter, hp]
    · simp [List.mem_filter, hq]

theorem toggleResources_eq_set (l : List Resource) (i : Nat) (p : Permission)
    (h : i < l.length) :
    toggleResources l i p =
      some (l.set i
        { l.get ⟨i, h⟩ with
          permissions := togglePerms (l.get ⟨i, h⟩).permissions p }) := by
  induction l generalizing i with
  | nil => exact absurd h (Nat.not_lt_zero i)
  | cons r rs ih =>
    cases i with
    | zero => rfl
    | succ i =>
      have h' : i < rs.length := Nat.lt_of_succ_lt_succ h
      show (toggleResources rs i p).map _ = _
      rw [ih i h']
      rfl

/-- Claim C3: toggling the same permission twice on a valid attachment index
succeeds both times and yields a draft whose attachment `i` keeps its name and
gets a permission list equal as a set to the original, with every other part
of the state (collection, selection, latch, the draft's id, name, description,
and every other attachment) unchanged. -/
theorem togglePermission_pair_restores (s : RolesState) (i : Nat)
    (p : Permission) (h : i < s.editingRole.resources.length) :
    ∃ s₁ s₂,
      handlePermissionChange s i p = some s₁ ∧
      handlePermissionChange s₁ i p = some s₂ ∧
      s₂.roles = s.roles ∧
      s₂.selectedRoleId = s.selectedRoleId ∧
      s₂.deletingRoleId = s.deletingRoleId ∧
      s₂.editingRole.id = s.editingRole.id ∧
      s₂.editingRole.name = s.editingRole.name ∧
      s₂.editingRole.description = s.editingRole.description ∧
      ∃ qs,
        s₂.editingRole.resources =
          s.editingRole.resources.set i
            { s.editingRole.resources.get ⟨i, h⟩ with permissions := qs } ∧
        ∀ q : Permission,
          q ∈ qs ↔ q ∈ (s.editingRole.resources.get ⟨i, h⟩).permissions := by
  have h1 := toggleResources_eq_set s.editingRole.resources i p h
  have hlen : i < (s.editingRole.resources.set i
      { s.editingRole.resources.get ⟨i, h⟩ with
        permissions :=
          togglePerms (s.editingRole.resources.get ⟨i, h⟩).permissions p
      }).length := by
    rw [List.length_set]
    exact h
  have h2 := toggleResources_eq_set (s.editingRole.resources.set i
      { s.editingRole.resources.get ⟨i, h⟩ with
        permissions :=
          togglePerms (s.editingRole.resources.get ⟨i, h⟩).permissions p
      }) i p hlen
  rw [List.get_set_eq, List.set_set] at h2
  refine ⟨{ s with editingRole := { s.editingRole with resources :=
      (s.editingRole.resources.set i
        { s.editingRole.resources.get ⟨i, h⟩ with
          permissions :=
            (togglePerms (s.editingRole.resources.get ⟨i, h⟩).permissions
              p) }) } },
    { s with editingRole := { s.editingRole with resources :=
      (s.editingRole.resources.set i
        { s.editingRole.resources.get ⟨i, h⟩ with
          permissions := (togglePerms
            (togglePerms (s.editingRole.resources.get ⟨i, h⟩).permissions p)
            p) }) } },
    ?_, ?_, rfl, rfl, rfl, rfl, rfl, rfl,
    ⟨togglePerms
        (togglePerms (s.editingRole.resources.get ⟨i, h⟩).permissions p) p,
      rfl, fun q => mem_togglePerms_togglePerms _ p q⟩⟩
  · unfold handlePermissionChange
    rw [h1]
    rfl
  · unfold handlePermissionChange
    show (toggleResources (s.editingRole.resources.set i _) i p).map _ = _
    rw [h2]
    rfl

/-- Witness for C3: double-toggling `Edit` on attachment 0 of the seed draft
succeeds and leaves collection and selection as before. -/
theorem togglePermission_pair_restores_witness :
    0 < initState.editingRole.resources.length ∧
    ∃ s₁ s₂,
      handlePermissionChange initState 0 Permission.Edit = some s₁ ∧
      handlePermissionChange s₁ 0 Permission.Edit = some s₂ ∧
      s₂.roles = initState.roles ∧
      s₂.selectedRoleId = initState.selectedRoleId := by
  refine ⟨by decide, ?_⟩
  obtain ⟨s₁, s₂, e1, e2, hr, hsel, _⟩ :=
    togglePermission_pair_restores initState 0 Permission.Edit (by decide)
  exact ⟨s₁, s₂, e1, e2, hr, hsel⟩

/-! ### C9 -/

/-- Claim C9: attaching a resource, detaching at any index, and toggling a
permission at a valid index all leave the collection and the selection
untouched — they modify only the draft. -/
theorem editor_ops_touch_only_draft (s : RolesState) (r : String) (i j : Nat)
    (p : Permission) (s' : RolesState)
    (htoggle : handlePermissionChange s j p = some s') :
    (attachResource s r).roles = s.roles ∧
    (attachResource s r).selectedRoleId = s.selectedRoleId ∧
    (handleRemoveResource s i).roles = s.roles ∧
    (handleRemoveResource s i).selectedRoleId = s.selectedRoleId ∧
    s'.roles = s.roles ∧
    s'.selectedRoleId = s.selectedRoleId := by
  refine ⟨rfl, rfl, rfl, rfl, ?_, ?_⟩
  all_goals
    unfold handlePermissionChange at htoggle
    cases htr : toggleResources s.editingRole.resources j p with
    | none =>
        rw [htr] at htoggle
        simp at htoggle
    | some rs =>
        rw [htr, Option.map_some'] at htoggle
        injection htoggle with hs
        subst hs
        rfl

/-- Witness for C9 at the seed state. -/
theorem editor_ops_touch_only_draft_witness :
    ∃ s', handlePermissionChange initState 0 Permission.Edit = some s' ∧
      ((attachResource initState "Audit Logs").roles = initState.roles ∧
        (attachResource initState "Audit Logs").selectedRoleId =
          initState.selectedRoleId ∧
        (handleRemoveResource initState 1).roles = initState.roles ∧
        (handleRemoveResource initState 1).selectedRoleId =
          initState.selectedRoleId ∧
        s'.roles = initState.roles ∧
        s'.selectedRoleId = initState.selectedRoleId) := by
  refine ⟨_, rfl, ?_⟩
  exact editor_ops_touch_only_draft initState "Audit Logs" 1 0
    Permission.Edit _ rfl

/-! ### C6 -/

theorem saveMap_of_no_match (l : List Role) (e : Role)
    (h : ∀ r ∈ l, r.id ≠ e.id) :
    (l.map fun role => if role.id = e.id then e else role) = l := by
  induction l with
  | nil => rfl
  | cons r rs ih =>
    rw [List.map_cons, if_neg (h r (List.mem_cons_self r rs)),
      ih fun x hx => h x (List.mem_cons_of_mem r hx)]

theorem saveMap_of_match_nodup (l : List Role) (e : Role) (k : Nat)
    (hnodup : (l.map Role.id).Nodup) (hk : k < l.length)
    (hid : (l.get ⟨k, hk⟩).id = e.id) :
    (l.map fun role => if role.id = e.id then e else role) = l.set k e := by
  induction l generalizing k with
  | nil => exact absurd hk (Nat.not_lt_zero k)
  | cons r rs ih =>
    rw [List.map_cons, List.nodup_cons] at hnodup
    cases k with
    | zero =>
      have hr : r.id = e.id := hid
      rw [List.map_cons, if_pos hr]
      show e :: _ = e :: rs
      congr 1
      apply saveMap_of_no_match
      intro x hx hxe
      exact hnodup.1 ((hr.trans hxe.symm) ▸ List.mem_map_of_mem Role.id hx)
    | succ k =>
      have hk' : k < rs.length := Nat.lt_of_succ_lt_succ hk
      have hget : (rs.get ⟨k, hk'⟩).id = e.id := hid
      have hr : r.id ≠ e.id := by
        intro hre
        exact hnodup.1
          ((hre.trans hget.symm) ▸
            List.mem_map_of_mem Role.id (List.get_mem rs k hk'))
      rw [List.map_cons, if_neg hr]
      show r :: _ = r :: rs.set k e
      congr 1
      exact ih k hnodup.2 hk' hget

/-- Claim C6: with pairwise-distinct collection ids, saving replaces exactly
the entry whose id matches the draft's id, in place (`List.set`), keeping the
collection's length and the selection; and when no entry matches, saving
leaves the collection unchanged. -/
theorem saveChanges_replaces_entry (s : RolesState)
    (hnodup : (s.roles.map Role.id).Nodup) :
    (∀ k (hk : k < s.roles.length),
      (s.roles.get ⟨k, hk⟩).id = s.editingRole.id →
        (handleSaveChanges s).roles = s.roles.set k s.editingRole) ∧
    ((∀ r ∈ s.roles, r.id ≠ s.editingRole.id) →
      (handleSaveChanges s).roles = s.roles) ∧
    (handleSaveChanges s).roles.length = s.roles.length ∧
    (handleSaveChanges s).selectedRoleId = s.selectedRoleId ∧
    (handleSaveChanges s).editingRole = s.editingRole := by
  refine ⟨?_, ?_, ?_, rfl, rfl⟩
  · intro k hk hid
    exact saveMap_of_match_nodup s.roles s.editingRole k hnodup hk hid
  · intro h
    exact saveMap_of_no_match s.roles s.editingRole h
  · show (s.roles.map _).length = s.roles.length
    rw [List.length_map]

/-- Witness for C6, the spec's scenario: select role 1, toggle `Edit` on
attachment 0, save; the collection's entry 0 is replaced in place and its
first attachment's permissions become Read, Add, Delete, Edit. -/
theorem saveChanges_replaces_entry_witness :
    ∃ s', handlePermissionChange (handleSelectRole initState (JsNumber.int 1))
        0 Permission.Edit = some s' ∧
      (s'.roles.map Role.id).Nodup ∧
      0 < s'.roles.length ∧
      (handleSaveChanges s').roles = s'.roles.set 0 s'.editingRole ∧
      (handleSaveChanges s').roles =
        [ { id := JsNumber.int 1
            name := "Member"
            description := "Basic access for regular users"
            resources :=
              [ { name := "Group Members"
                  permissions := [Permission.Read, Permission.Add,
                                  Permission.Delete, Permission.Edit] }
              , { name := "Forum Categories"
                  permissions := [Permission.Read, Permission.Add,
                                  Permission.Modify, Permission.Delete,
                                  Permission.Post] }
              , { name := "Category1"
                  permissions := [Permission.Edit, Permission.Delete,
                                  Permission.Post] }
              , { name := "Category2"
                  permissions := [Permission.Post] } ] }
        , adminRole, moderatorRole ] := by
  refine ⟨_, rfl, by decide, by decide, ?_, by decide⟩
  exact (saveChanges_replaces_entry _ (by decide)).1 0 (by decide) (by decide)

/-! ### C8 -/

theorem togglePerms_nodup (ps : List Permission) (p : Permission)
    (h : ps.Nodup) : (togglePerms ps p).Nodup := by
  unfold togglePerms
  by_cases hp : p ∈ ps
  · rw [if_pos hp]
    exact h.filter _
  · rw [if_neg hp]
    rw [List.nodup_append]
    exact ⟨h, List.nodup_singleton p,
      by simpa [List.disjoint_singleton] using hp⟩

theorem toggleResources_inv (l : List Resource) (i : Nat) (p : Permission)
    (l' : List Resource) (h : toggleResources l i p = some l') :
    l'.map Resource.name = l.map Resource.name ∧
    ((∀ a ∈ l, a.permissions.Nodup) → ∀ a ∈ l', a.permissions.Nodup) := by
  induction l generalizing i l' with
  | nil => cases h
  | cons r rs ih =>
    cases i with
    | zero =>
      simp only [toggleResources, Option.some.injEq] at h
      subst h
      refine ⟨rfl, fun hall a ha => ?_⟩
      rcases List.mem_cons.mp ha with rfl | ha
      · exact togglePerms_nodup r.permissions p (hall r (List.mem_cons_self r rs))
      · exact hall a (List.mem_cons_of_mem r ha)
    | succ i =>
      simp only [toggleResources] at h
      cases htr : toggleResources rs i p with
      | none =>
        rw [htr] at h
        simp at h
      | some rs' =>
        rw [htr, Option.map_some', Option.some.injEq] at h
        obtain ⟨h1, h2⟩ := ih i rs' htr
        subst h
        refine ⟨?_, fun hall a ha => ?_⟩
        · rw [List.map_cons, List.map_cons, h1]
        · rcases List.mem_cons.mp ha with rfl | ha
          · exact hall a (List.mem_cons_self a rs)
          · exact h2 (fun b hb => hall b (List.mem_cons_of_mem r hb)) a ha

theorem inv_select (s : RolesState) (i : JsNumber) (hInv : StateInv s) :
    StateInv (handleSelectRole s i) := by
  unfold handleSelectRole
  cases hf : findRole s.roles i with
  | none => exact hInv
  | some r => exact ⟨hInv.1, hInv.1 r (findRole_mem s.roles i r hf)⟩

theorem inv_save (s : RolesState) (hInv : StateInv s) :
    StateInv (handleSaveChanges s) := by
  refine ⟨?_, hInv.2⟩
  intro r' hr'
  obtain ⟨x, hx, hfx⟩ := List.mem_map.mp hr'
  by_cases hid : x.id = s.editingRole.id
  · rw [if_pos hid] at hfx
    rw [← hfx]
    exact hInv.2
  · rw [if_neg hid] at hfx
    rw [← hfx]
    exact hInv.1 x hx

theorem inv_add (s : RolesState) (hInv : StateInv s) :
    StateInv (handleAddRole s) := by
  have hnew : RoleInv
      { id := jsAddOne (jsMax (s.roles.map Role.id))
        name := "New " ++ jsNumToString (jsAddOne (jsMax (s.roles.map Role.id)))
        description := ""
        resources := [] } :=
    ⟨List.nodup_nil, fun a ha => absurd ha (List.not_mem_nil a)⟩
  refine ⟨?_, hnew⟩
  intro r hr
  rcases List.mem_append.mp hr with hr | hr
  · exact hInv.1 r hr
  · rw [List.mem_singleton.mp hr]
    exact hnew

theorem inv_confirm (s : RolesState) (hInv : StateInv s) :
    StateInv (confirmDeleteRole s) := by
  cases hd : s.deletingRoleId with
  | none =>
    have hc : confirmDeleteRole s = s := by
      unfold confirmDeleteRole
      rw [hd]
    rw [hc]
    exact hInv
  | some d =>
    by_cases hsel : s.selectedRoleId = d
    · cases hrem : removeRoles s.roles d with
      | nil =>
        have hc : confirmDeleteRole s =
            { s with roles := []
                     selectedRoleId := JsNumber.int 0
                     deletingRoleId := none } := by
          unfold confirmDeleteRole
          rw [hd]
          show (if s.selectedRoleId = d then _ else _) = _
          rw [if_pos hsel, hrem]
        rw [hc]
        exact ⟨fun r hr => absurd hr (List.not_mem_nil r), hInv.2⟩
      | cons first rest =>
        have hc : confirmDeleteRole s =
            { s with roles := first :: rest
                     selectedRoleId := first.id
                     editingRole := first
                     deletingRoleId := none } := by
          unfold confirmDeleteRole
          rw [hd]
          show (if s.selectedRoleId = d then _ else _) = _
          rw [if_pos hsel, hrem]
        rw [hc]
        have hsub : ∀ r ∈ first :: rest, r ∈ s.roles := by
          intro r hr
          have hmem : r ∈ removeRoles s.roles d := by
            rw [hrem]
            exact hr
          exact ((mem_removeRoles r s.roles d).mp hmem).1
        exact ⟨fun r hr => hInv.1 r (hsub r hr),
          hInv.1 first (hsub first (List.mem_cons_self first rest))⟩
    · have hc : confirmDeleteRole s =
          { s with roles := removeRoles s.roles d, deletingRoleId := none } := by
        unfold confirmDeleteRole
        rw [hd]
        show (if s.selectedRoleId = d then _ else _) = _
        rw [if_neg hsel]
      rw [hc]
      exact ⟨fun r hr => hInv.1 r ((mem_removeRoles r s.roles d).mp hr).1,
        hInv.2⟩

theorem inv_attach (s : RolesState) (r : String)
    (hfresh : ∀ a ∈ s.editingRole.resources, a.name ≠ r) (hInv : StateInv s) :
    StateInv (attachResource s r) := by
  refine ⟨hInv.1, ?_, ?_⟩
  · show ((s.editingRole.resources ++
      [({ name := r, permissions := [] } : Resource)]).map Resource.name).Nodup
    rw [List.map_append]
    rw [List.nodup_append]
    refine ⟨hInv.2.1, List.nodup_singleton r, ?_⟩
    intro a ha har
    obtain ⟨b, hb, hbname⟩ := List.mem_map.mp ha
    simp at har
    exact hfresh b hb (hbname.trans har)
  · intro a ha
    rcases List.mem_append.mp ha with ha | ha
    · exact hInv.2.2 a ha
    · rw [List.mem_singleton.mp ha]
      exact List.nodup_nil

theorem inv_detach (s : RolesState) (i : Nat) (hInv : StateInv s) :
    StateInv (handleRemoveResource s i) := by
  have hsub := List.eraseIdx_sublist s.editingRole.resources i
  refine ⟨hInv.1, ?_, ?_⟩
  · exact (hsub.map Resource.name).nodup hInv.2.1
  · intro a ha
    exact hInv.2.2 a (hsub.subset ha)

theorem inv_toggle (s : RolesState) (i : Nat) (p : Permission)
    (s' : RolesState) (h : handlePermissionChange s i p = some s')
    (hInv : StateInv s) : StateInv s' := by
  unfold handlePermissionChange at h
  cases htr : toggleResources s.editingRole.resources i p with
  | none =>
    rw [htr] at h
    simp at h
  | some rs' =>
    rw [htr, Option.map_some', Option.some.injEq] at h
    obtain ⟨h1, h2⟩ := toggleResources_inv s.editingRole.resources i p rs' htr
    rw [← h]
    refine ⟨hInv.1, ?_, h2 hInv.2.2⟩
    show (rs'.map Resource.name).Nodup
    rw [h1]
    exact hInv.2.1

/-- Claim C8: every state reachable from the seed data by the editor's
operations (attach only with a fresh name, toggle only at a valid index)
satisfies the well-formedness invariant: in every collection entry and in the
draft, no two attachments share a name and no permission list repeats a
permission. -/
theorem reachable_states_wellformed (s : RolesState) (h : Reachable s) :
    StateInv s := by
  induction h with
  | init => decide
  | step _ hstep ih =>
    cases hstep
    all_goals first
      | exact ih
      | exact inv_select _ _ ih
      | exact inv_save _ ih
      | exact inv_add _ ih
      | exact inv_confirm _ ih
      | exact inv_attach _ _ (by assumption) ih
      | exact inv_detach _ _ ih
      | exact inv_toggle _ _ _ _ (by assumption) ih

/-- Witness for C8: the seed state is reachable and well-formed. -/
theorem reachable_states_wellformed_witness : StateInv initState :=
  reachable_states_wellformed initState Reachable.init
